import Mathlib

/-!
Verification of the CFS-inspired user-space scheduler
(`cfs_scheduler_human.c` / `CFS_Heuristic_upgrade.c`).

The two source files contain identical copies of the scheduling core:
the weight table (`nice_to_weight`), the heuristic engine
(`compute_heuristic_metrics`), the virtual-runtime accountant
(`update_vruntime`), the selector (`select_next_process_cfs_heuristic`)
and the execution loop (`schedule_processes`).  Every definition below is
a shallow embedding of that core: C `int`/`long` values become `Int`
(with C truncating division written `Int.tdiv`), the C `unsigned long`
fields become `Nat` reduced mod `2 ^ 64` where the code can wrap, and
operations whose C behavior is undefined (out-of-bounds table read,
division by a zero weight) return `none`.
-/

namespace CfsScheduler

/-- Lifecycle states of a task (`proc_state_t`). -/
inductive ProcState where
  | PROC_READY
  | PROC_RUNNING
  | PROC_STOPPED
  | PROC_COMPLETED
  | PROC_WAITING_ARRIVAL
deriving DecidableEq, Repr

/-- One scheduled task (`process_t`).  The `pid` field is the external
process handle and carries no scheduling information, so it is omitted;
every other field of the C struct is kept.  `vruntime_ns` is the
C `unsigned long` (64-bit) counter, represented as a `Nat` that the
operations reduce mod `2 ^ 64`. -/
structure Proc where
  task_id : Int
  arrival_time_ms : Int
  burst_time_ms : Int
  remaining_time_ms : Int
  vruntime_ns : Nat
  weight : Int
  nice_value : Int
  start_time_ms : Int
  finish_time_ms : Int
  wait_time_ms : Int
  response_time_ms : Int
  first_run : Int
  last_schedule_time_ms : Int
  total_wait_time_ms : Int
  estimated_burst_ms : Int
  interactivity_score : Int
  aging_boost : Int
  state : ProcState
  time_slice_remaining_ms : Int
deriving DecidableEq, Repr

/-- `TIME_QUANTUM_MS` -/
def TIME_QUANTUM_MS : Int := 10
/-- `MIN_GRANULARITY_MS` -/
def MIN_GRANULARITY_MS : Int := 5
/-- `CFS_WEIGHT_NICE_0` -/
def CFS_WEIGHT_NICE_0 : Int := 1024
/-- `MAX_WAIT_THRESHOLD_MS` -/
def MAX_WAIT_THRESHOLD_MS : Int := 100
/-- `INTERACTIVE_THRESHOLD_MS` -/
def INTERACTIVE_THRESHOLD_MS : Int := 50

/-- The `static const int weights[]` table literal of `nice_to_weight`,
transcribed entry for entry from the source.  (The literal has 38
entries; the standard CFS table would continue `18, 15`.) -/
def weights : List Int :=
  [88761, 71755, 56483, 46273, 36291, 29154, 23254, 18705, 14949, 11916,
   9548, 7620, 6100, 4904, 3906, 3121, 2501, 1991, 1586, 1277,
   1024, 820, 655, 526, 423, 335, 272, 215, 172, 137,
   110, 87, 70, 56, 45, 36, 29, 23]

/-- The index computation of `nice_to_weight`: `idx = nice + 20`,
clamped below to 0 and above to 39. -/
def clamped_idx (nice : Int) : Int :=
  let idx := nice + 20
  let idx := if idx < 0 then 0 else idx
  if idx > 39 then 39 else idx

/-- `nice_to_weight`: clamp the index, then read `weights[idx]`.
A read past the end of the array is undefined behavior in C and is
embedded as `none`. -/
def nice_to_weight (nice : Int) : Option Int :=
  weights.get? (clamped_idx nice).toNat

/-- First block of `compute_heuristic_metrics`: if the task is `READY`
or `STOPPED`, accumulate the positive part of
`current_time - last_schedule_time_ms` into `total_wait_time_ms`. -/
def chm_wait_step (proc : Proc) (current_time : Int) : Proc :=
  if proc.state = ProcState.PROC_READY ∨ proc.state = ProcState.PROC_STOPPED then
    if current_time - proc.last_schedule_time_ms > 0 then
      { proc with
          total_wait_time_ms :=
            proc.total_wait_time_ms + (current_time - proc.last_schedule_time_ms) }
    else proc
  else proc

/-- Second block of `compute_heuristic_metrics`: the aging boost,
`(total_wait - 100) / 10` capped at 10 when `total_wait > 100`, else
reset to 0.  The division is C truncating division (`Int.tdiv`). -/
def chm_aging_step (p : Proc) : Proc :=
  if p.total_wait_time_ms > MAX_WAIT_THRESHOLD_MS then
    { p with
        aging_boost :=
          if Int.tdiv (p.total_wait_time_ms - MAX_WAIT_THRESHOLD_MS) 10 > 10 then 10
          else Int.tdiv (p.total_wait_time_ms - MAX_WAIT_THRESHOLD_MS) 10 }
  else { p with aging_boost := 0 }

/-- Third block of `compute_heuristic_metrics`: the one-shot burst seed,
`remaining_time_ms / 4` floored at `TIME_QUANTUM_MS`, written only when
`estimated_burst_ms == 0`. -/
def chm_burst_step (p : Proc) : Proc :=
  if p.estimated_burst_ms = 0 then
    { p with
        estimated_burst_ms :=
          if Int.tdiv p.remaining_time_ms 4 < TIME_QUANTUM_MS then TIME_QUANTUM_MS
          else Int.tdiv p.remaining_time_ms 4 }
  else p

/-- Fourth block of `compute_heuristic_metrics`: the interactivity
score, `(remaining * 100) / burst_total` plus a `+20` bonus for a short
estimated burst, written only when `burst_time_ms > 0`. -/
def chm_interactivity_step (p : Proc) : Proc :=
  if p.burst_time_ms > 0 then
    { p with
        interactivity_score :=
          (if p.estimated_burst_ms < INTERACTIVE_THRESHOLD_MS then
            Int.tdiv (p.remaining_time_ms * 100) p.burst_time_ms + 20
          else Int.tdiv (p.remaining_time_ms * 100) p.burst_time_ms) }
  else p

/-- `compute_heuristic_metrics`: the four blocks in source order,
followed by the unconditional `last_schedule_time_ms = current_time`
write. -/
def compute_heuristic_metrics (proc : Proc) (current_time : Int) : Proc :=
  { chm_interactivity_step (chm_burst_step (chm_aging_step (chm_wait_step proc current_time))) with
      last_schedule_time_ms := current_time }

/-- Normal form of `compute_heuristic_metrics`, proven equal to it in
`compute_heuristic_metrics_eq`: the five written fields as functions of
the pre-state. -/
def chm_spec (p : Proc) (t : Int) : Proc :=
  let tw :=
    if (p.state = ProcState.PROC_READY ∨ p.state = ProcState.PROC_STOPPED) ∧
        t - p.last_schedule_time_ms > 0 then
      p.total_wait_time_ms + (t - p.last_schedule_time_ms)
    else p.total_wait_time_ms
  let boost := if tw > 100 then min (Int.tdiv (tw - 100) 10) 10 else 0
  let est :=
    if p.estimated_burst_ms = 0 then max (Int.tdiv p.remaining_time_ms 4) 10
    else p.estimated_burst_ms
  let inter :=
    if p.burst_time_ms > 0 then
      if est < 50 then Int.tdiv (p.remaining_time_ms * 100) p.burst_time_ms + 20
      else Int.tdiv (p.remaining_time_ms * 100) p.burst_time_ms
    else p.interactivity_score
  { p with
      total_wait_time_ms := tw
      aging_boost := boost
      estimated_burst_ms := est
      interactivity_score := inter
      last_schedule_time_ms := t }

/-- Conversion of the 64-bit `unsigned long` value `v` to `long long`
(`long long score = proc->vruntime_ns`): values at or above `2 ^ 63`
wrap to negative. -/
def toLL (v : Nat) : Int :=
  if v < 2 ^ 63 then (v : Int) else (v : Int) - 2 ^ 64

/-- `LLONG_MAX`, the initial value of `best_score` in the selector. -/
def LLONG_MAX : Int := 2 ^ 63 - 1

/-- The selector's filter: the loop `continue`s unless the task's state
is `PROC_READY` or `PROC_STOPPED` and `elapsed >= arrival_time_ms`. -/
def eligible (elapsed : Int) (p : Proc) : Prop :=
  (p.state = ProcState.PROC_READY ∨ p.state = ProcState.PROC_STOPPED) ∧
    p.arrival_time_ms ≤ elapsed

instance (elapsed : Int) (p : Proc) : Decidable (eligible elapsed p) := by
  unfold eligible; infer_instance

/-- The composite score computed by the selector for a considered task:
the heuristic engine runs on the task first, then
`score = vruntime - aging_boost*100000000 - (est < 50 ? 50000000 : 0)
 + (remaining > 100 ? 10000000 : 0)`. -/
def heuristic_score (p : Proc) (current_time : Int) : Int :=
  let q := compute_heuristic_metrics p current_time
  toLL q.vruntime_ns - q.aging_boost * 100000000 -
      (if q.estimated_burst_ms < INTERACTIVE_THRESHOLD_MS then 50000000 else 0) +
    (if q.remaining_time_ms > 100 then 10000000 else 0)

/-- The selector's scan loop, carrying `best_idx` and `best_score`.
`i` is the index of the head of the remaining list. -/
def selectAux (current_time elapsed : Int) :
    List Proc → Nat → Int → Int → Int
  | [], _, best_idx, _ => best_idx
  | p :: ps, i, best_idx, best_score =>
    if eligible elapsed p then
      let s := heuristic_score p current_time
      if s < best_score then selectAux current_time elapsed ps (i + 1) (i : Int) s
      else selectAux current_time elapsed ps (i + 1) best_idx best_score
    else selectAux current_time elapsed ps (i + 1) best_idx best_score

/-- `select_next_process_cfs_heuristic` (return value): scan all tasks
starting from `best_idx = -1`, `best_score = LLONG_MAX`, with
`elapsed = current_time - scheduler_start_time_ms`. -/
def select_next_process_cfs_heuristic (ts : List Proc)
    (current_time start_time : Int) : Int :=
  selectAux current_time (current_time - start_time) ts 0 (-1) LLONG_MAX

/-- `select_next_process_cfs_heuristic` (state effect): every considered
task is mutated in place by `compute_heuristic_metrics`; skipped tasks
are untouched. -/
def select_update (ts : List Proc) (current_time start_time : Int) : List Proc :=
  ts.map fun p =>
    if eligible (current_time - start_time) p then
      compute_heuristic_metrics p current_time
    else p

/-- `update_vruntime`: `executed_ns = executed_time_ms * 1000000UL`
(the signed `long` is converted to `unsigned long`, wrapping mod
`2 ^ 64`), `delta = (executed_ns * 1024) / weight` in 64-bit unsigned
arithmetic, `vruntime_ns += delta`, then the `min_vruntime_ns` update.
Division by `weight == 0` is undefined behavior (`none`); a negative
`weight` converts to a huge unsigned divisor, which C defines. -/
def update_vruntime (proc : Proc) (min_vruntime_ns : Nat) (executed_time_ms : Int) :
    Option (Proc × Nat) :=
  if proc.weight = 0 then none
  else
    let executed_ns : Nat := ((executed_time_ms * 1000000) % (2 ^ 64 : Int)).toNat
    let weight_u : Nat := (proc.weight % (2 ^ 64 : Int)).toNat
    let delta_vruntime : Nat := ((executed_ns * 1024) % 2 ^ 64) / weight_u
    let vr : Nat := (proc.vruntime_ns + delta_vruntime) % 2 ^ 64
    let mv : Nat := if vr < min_vruntime_ns ∨ min_vruntime_ns = 0 then vr else min_vruntime_ns
    some ({ proc with vruntime_ns := vr }, mv)

/-- Global scheduler state (`scheduler_t`).  The fixed-size array plus
`num_processes` pair is embedded as a list. -/
structure Scheduler where
  processes : List Proc
  current_process_idx : Int
  min_vruntime_ns : Nat
  scheduler_start_time_ms : Int
  current_time_ms : Int
  completed_count : Int
deriving DecidableEq, Repr

/-- The context-switch-out step of the loop: if a different task
currently holds `current_process_idx` and is `PROC_RUNNING`, set it to
`PROC_STOPPED` (the `SIGSTOP` delivery itself is external). -/
def stop_prev_if_needed (ps : List Proc) (cur : Int) (j : Nat) : List Proc :=
  if cur ≠ -1 ∧ cur ≠ (j : Int) then
    match ps.get? cur.toNat with
    | some prev =>
      if prev.state = ProcState.PROC_RUNNING then
        ps.set cur.toNat { prev with state := ProcState.PROC_STOPPED }
      else ps
    | none => ps
  else ps

/-- The switch-in step of the loop for the chosen task: first-run
bookkeeping, transition to `PROC_RUNNING`, and the time-slice
computation `(TIME_QUANTUM_MS * 1024) / weight` floored at
`MIN_GRANULARITY_MS`.  A zero weight would be a division by zero
(`none`). -/
def switch_in (proc : Proc) (t1 start_time : Int) : Option Proc :=
  if proc.weight = 0 then none
  else
    let proc : Proc :=
      if proc.first_run = 0 then
        { proc with
            first_run := 1,
            response_time_ms := t1 - start_time - proc.arrival_time_ms,
            start_time_ms := t1 }
      else proc
    let slice := Int.tdiv (TIME_QUANTUM_MS * CFS_WEIGHT_NICE_0) proc.weight
    let slice := if slice < MIN_GRANULARITY_MS then MIN_GRANULARITY_MS else slice
    some { proc with
             state := ProcState.PROC_RUNNING,
             time_slice_remaining_ms := slice }

/-- The dispatch half of one iteration of `schedule_processes`: sample
`current_time` (`t1`), run the selector (which samples its own clock
value `t_sel` and mutates the considered tasks), handle the
`next_idx == -1` and pre-arrival `continue` branches, stop the previous
task, and switch the chosen task in.  Returns the updated scheduler and
the chosen index (`none` when the iteration `continue`d before
executing anything). -/
def dispatch_phase (s : Scheduler) (t1 t_sel : Int) :
    Option (Scheduler × Option Nat) :=
  let next := select_next_process_cfs_heuristic s.processes t_sel s.scheduler_start_time_ms
  let s2 : Scheduler :=
    { s with
        current_time_ms := t1,
        processes := select_update s.processes t_sel s.scheduler_start_time_ms }
  if next < 0 then some (s2, none)
  else
    match s2.processes.get? next.toNat with
    | none => none
    | some proc =>
      if t1 - s2.scheduler_start_time_ms < proc.arrival_time_ms then some (s2, none)
      else
        let ps2 := stop_prev_if_needed s2.processes s2.current_process_idx next.toNat
        match ps2.get? next.toNat with
        | none => none
        | some proc2 =>
          if proc2.state = ProcState.PROC_READY ∨ proc2.state = ProcState.PROC_STOPPED then
            match switch_in proc2 t1 s2.scheduler_start_time_ms with
            | none => none
            | some proc3 =>
              some ({ s2 with
                        processes := ps2.set next.toNat proc3,
                        current_process_idx := (next.toNat : Int) },
                    some next.toNat)
          else some ({ s2 with processes := ps2 }, some next.toNat)

/-- The accounting half of one iteration of `schedule_processes` for the
chosen index `j`: subtract the measured `executed` time from
`remaining_time_ms` (floored at 0), advance the virtual runtime, then
either complete the task (`reaped` is the `waitpid(..., WNOHANG)`
outcome, `t_fin` the `get_time_ms()` sample at completion) or stop it. -/
def account_phase (s : Scheduler) (j : Nat) (executed : Int) (reaped : Bool)
    (t_fin : Int) : Option Scheduler :=
  match s.processes.get? j with
  | none => none
  | some proc =>
    let r := proc.remaining_time_ms - executed
    let proc : Proc := { proc with remaining_time_ms := if r ≤ 0 then 0 else r }
    match update_vruntime proc s.min_vruntime_ns executed with
    | none => none
    | some (proc, mv) =>
      let s : Scheduler := { s with min_vruntime_ns := mv }
      if reaped ∨ proc.remaining_time_ms = 0 then
        let turnaround := t_fin - s.scheduler_start_time_ms - proc.arrival_time_ms
        let proc : Proc :=
          { proc with
              state := ProcState.PROC_COMPLETED,
              finish_time_ms := t_fin,
              wait_time_ms := turnaround - proc.burst_time_ms }
        some { s with
                 processes := s.processes.set j proc,
                 completed_count := s.completed_count + 1 }
      else
        some { s with
                 processes := s.processes.set j { proc with state := ProcState.PROC_STOPPED } }

/-- One full iteration of the `schedule_processes` loop body.  The
external inputs are the clock samples `t1` (loop top), `t_sel`
(selector), `t_fin` (completion), the measured `executed` time of the
slice, and whether `waitpid` `reaped` the child. -/
def schedule_step (s : Scheduler) (t1 t_sel executed : Int) (reaped : Bool)
    (t_fin : Int) : Option Scheduler :=
  match dispatch_phase s t1 t_sel with
  | none => none
  | some (s2, none) => some s2
  | some (s2, some j) => account_phase s2 j executed reaped t_fin

/-- Per-task setup in `main`: the fields written for `processes[i]`
before `fork`.  The weight comes from `nice_to_weight` (out-of-bounds
niceness propagates `none`); `min_vruntime_ns` is still 0 at setup and
seeds `vruntime_ns`; all fields not written by `main` hold the zeros
from `memset`. -/
def init_process (i : Nat) (arrival_ms burst_ms nice : Int)
    (min_vruntime_ns : Nat) (start_time : Int) : Option Proc :=
  match nice_to_weight nice with
  | none => none
  | some w =>
    some
      { task_id := (i : Int)
        arrival_time_ms := arrival_ms
        burst_time_ms := burst_ms
        remaining_time_ms := burst_ms
        vruntime_ns := min_vruntime_ns
        weight := w
        nice_value := nice
        start_time_ms := 0
        finish_time_ms := 0
        wait_time_ms := 0
        response_time_ms := 0
        first_run := 0
        last_schedule_time_ms := start_time
        total_wait_time_ms := 0
        estimated_burst_ms := 0
        interactivity_score := 100
        aging_boost := 0
        state := ProcState.PROC_READY
        time_slice_remaining_ms := 0 }

/-- The synthetic `workload[]` of `main`:
`(arrival_ms, burst_ms, nice)` rows. -/
def workload : List (Int × Int × Int) :=
  [(0, 60, 0), (10, 20, -5), (15, 80, 5), (20, 30, 0), (30, 15, -10), (35, 50, 0)]

/-- The sequential setup loop of `main` over indexed workload rows:
each row is turned into a `Proc` by `init_process`; a failure (an
out-of-range niceness) aborts the setup. -/
def init_tasks_aux (start_time : Int) :
    List (Nat × Int × Int × Int) → Option (List Proc)
  | [] => some []
  | iw :: rest =>
    match init_process iw.1 iw.2.1 iw.2.2.1 iw.2.2.2 0 start_time with
    | none => none
    | some p =>
      match init_tasks_aux start_time rest with
      | none => none
      | some ps => some (p :: ps)

/-- The task list `main` builds from `workload` (scheduler state freshly
zeroed, so `min_vruntime_ns = 0` while seeding every task). -/
def init_tasks (start_time : Int) : Option (List Proc) :=
  init_tasks_aux start_time workload.enum

/-- A sample task record used to instantiate theorems with hypotheses
at concrete inputs: nice 0 (weight 1024), a 60 ms burst, arrival 0,
freshly initialized. -/
def sampleProc : Proc :=
  { task_id := 0
    arrival_time_ms := 0
    burst_time_ms := 60
    remaining_time_ms := 60
    vruntime_ns := 0
    weight := 1024
    nice_value := 0
    start_time_ms := 0
    finish_time_ms := 0
    wait_time_ms := 0
    response_time_ms := 0
    first_run := 0
    last_schedule_time_ms := 0
    total_wait_time_ms := 0
    estimated_burst_ms := 0
    interactivity_score := 100
    aging_boost := 0
    state := ProcState.PROC_READY
    time_slice_remaining_ms := 0 }

/-- A sample scheduler state holding only `sampleProc`, as right after
setup. -/
def sampleSched : Scheduler :=
  { processes := [sampleProc]
    current_process_idx := -1
    min_vruntime_ns := 0
    scheduler_start_time_ms := 0
    current_time_ms := 0
    completed_count := 0 }

/-- `sampleProc` in the `PROC_RUNNING` state. -/
def sampleRunningProc : Proc :=
  { sampleProc with state := ProcState.PROC_RUNNING }

/-- A two-task scheduler: task 0 currently Running, task 1 Ready. -/
def sampleSched2 : Scheduler :=
  { sampleSched with
      processes := [sampleRunningProc, sampleProc]
      current_process_idx := 0 }

/-- The scheduler obtained by dispatching `sampleSched` at clock 5. -/
def sampleDispatched : Scheduler :=
  ((dispatch_phase sampleSched 5 5).getD (sampleSched, none)).1

/-- The task stored at index 0 after that dispatch. -/
def sampleDispatchedProc : Proc :=
  (sampleDispatched.processes.get? 0).getD sampleProc

/-- The scheduler obtained by one full iteration on `sampleSched`. -/
def sampleStepped : Scheduler :=
  (schedule_step sampleSched 5 5 10 false 20).getD sampleSched

/-- The scheduler obtained by accounting task 1 of `sampleSched2`. -/
def sampleAccounted : Scheduler :=
  (account_phase sampleSched2 1 10 false 20).getD sampleSched2

/-- The task list built by the setup loop at start time 0. -/
def sampleInit : List Proc :=
  (init_tasks 0).getD []

/-! ## Normal-form lemmas for the heuristic engine -/

lemma chm_wait_step_eq (p : Proc) (t : Int) :
    chm_wait_step p t =
      { p with
          total_wait_time_ms :=
            if (p.state = ProcState.PROC_READY ∨ p.state = ProcState.PROC_STOPPED) ∧
                t - p.last_schedule_time_ms > 0 then
              p.total_wait_time_ms + (t - p.last_schedule_time_ms)
            else p.total_wait_time_ms } := by
  unfold chm_wait_step
  split_ifs
  all_goals first | rfl | (exfalso; tauto)

lemma chm_aging_step_eq (p : Proc) :
    chm_aging_step p =
      { p with
          aging_boost :=
            if p.total_wait_time_ms > 100 then
              min (Int.tdiv (p.total_wait_time_ms - 100) 10) 10
            else 0 } := by
  unfold chm_aging_step MAX_WAIT_THRESHOLD_MS
  rw [min_def]
  generalize Int.tdiv (p.total_wait_time_ms - 100) 10 = d
  split_ifs
  all_goals first | rfl | (exfalso; omega) | (congr 1 <;> omega)

lemma chm_burst_step_eq (p : Proc) :
    chm_burst_step p =
      { p with
          estimated_burst_ms :=
            if p.estimated_burst_ms = 0 then max (Int.tdiv p.remaining_time_ms 4) 10
            else p.estimated_burst_ms } := by
  unfold chm_burst_step TIME_QUANTUM_MS
  rw [max_def]
  generalize Int.tdiv p.remaining_time_ms 4 = d
  split_ifs
  all_goals first | rfl | (exfalso; omega) | (congr 1 <;> omega)

lemma chm_interactivity_step_eq (p : Proc) :
    chm_interactivity_step p =
      { p with
          interactivity_score :=
            if p.burst_time_ms > 0 then
              if p.estimated_burst_ms < 50 then
                Int.tdiv (p.remaining_time_ms * 100) p.burst_time_ms + 20
              else Int.tdiv (p.remaining_time_ms * 100) p.burst_time_ms
            else p.interactivity_score } := by
  unfold chm_interactivity_step INTERACTIVE_THRESHOLD_MS
  split_ifs
  all_goals first | rfl | (exfalso; tauto)

/-- `compute_heuristic_metrics` computes exactly the five-field update
of `chm_spec`. -/
lemma compute_heuristic_metrics_eq (p : Proc) (t : Int) :
    compute_heuristic_metrics p t = chm_spec p t := by
  unfold compute_heuristic_metrics
  rw [chm_wait_step_eq, chm_aging_step_eq]
  dsimp only []
  rw [chm_burst_step_eq]
  dsimp only []
  rw [chm_interactivity_step_eq]
  unfold chm_spec
  dsimp only []


/-! ## Selector and execution-loop lemmas -/

/-- Characterization of the selector's scan: either no considered task
beats the incoming `best_score` and the incoming `best_idx` is
returned, or the result is the first position (offset by `i`) attaining
the minimal score strictly below `best_score`. -/
lemma selectAux_spec (ct el : Int) (ts : List Proc) :
    ∀ (i : Nat) (bi bs : Int),
      (selectAux ct el ts i bi bs = bi ∧
        ∀ k (hk : k < ts.length), eligible el (ts.get ⟨k, hk⟩) →
          bs ≤ heuristic_score (ts.get ⟨k, hk⟩) ct) ∨
      (∃ j, ∃ hj : j < ts.length,
        selectAux ct el ts i bi bs = ((i + j : Nat) : Int) ∧
        eligible el (ts.get ⟨j, hj⟩) ∧
        heuristic_score (ts.get ⟨j, hj⟩) ct < bs ∧
        (∀ k (hk : k < ts.length), eligible el (ts.get ⟨k, hk⟩) →
          heuristic_score (ts.get ⟨j, hj⟩) ct ≤ heuristic_score (ts.get ⟨k, hk⟩) ct) ∧
        (∀ k (hk : k < ts.length), k < j → eligible el (ts.get ⟨k, hk⟩) →
          heuristic_score (ts.get ⟨j, hj⟩) ct < heuristic_score (ts.get ⟨k, hk⟩) ct)) := by
  induction ts with
  | nil =>
    intro i bi bs
    left
    exact ⟨rfl, fun k hk => absurd hk (Nat.not_lt_zero k)⟩
  | cons p ps IH =>
    intro i bi bs
    rw [selectAux]
    by_cases he : eligible el p
    · rw [if_pos he]
      by_cases hs : heuristic_score p ct < bs
      · rw [if_pos hs]
        rcases IH (i + 1) (i : Int) (heuristic_score p ct) with
          ⟨hres, hall⟩ | ⟨j, hj, hres, helig, hlt, hmin, hstrict⟩
        · -- nothing in ps beats p: p itself is the first argmin
          right
          refine ⟨0, Nat.succ_pos _, ?_, he, hs, ?_, ?_⟩
          · rw [hres]; norm_num
          · intro k hk hke
            match k with
            | 0 => exact le_refl _
            | k + 1 => exact hall k (Nat.succ_lt_succ_iff.mp hk) hke
          · intro k hk hk0 hke
            exact absurd hk0 (Nat.not_lt_zero k)
        · -- some element of ps beats p strictly
          right
          refine ⟨j + 1, Nat.succ_lt_succ hj, ?_, helig, lt_trans hlt hs, ?_, ?_⟩
          · rw [hres]; congr 1; omega
          · intro k hk hke
            match k with
            | 0 => exact le_of_lt hlt
            | k + 1 => exact hmin k (Nat.succ_lt_succ_iff.mp hk) hke
          · intro k hk hk0 hke
            match k with
            | 0 => exact hlt
            | k + 1 => exact hstrict k (Nat.succ_lt_succ_iff.mp hk) (Nat.succ_lt_succ_iff.mp hk0) hke
      · rw [if_neg hs]
        rcases IH (i + 1) bi bs with
          ⟨hres, hall⟩ | ⟨j, hj, hres, helig, hlt, hmin, hstrict⟩
        · left
          refine ⟨hres, ?_⟩
          intro k hk hke
          match k with
          | 0 => exact le_of_not_lt hs
          | k + 1 => exact hall k (Nat.succ_lt_succ_iff.mp hk) hke
        · right
          refine ⟨j + 1, Nat.succ_lt_succ hj, ?_, helig, hlt, ?_, ?_⟩
          · rw [hres]; congr 1; omega
          · intro k hk hke
            match k with
            | 0 => exact le_of_lt (lt_of_lt_of_le hlt (le_of_not_lt hs))
            | k + 1 => exact hmin k (Nat.succ_lt_succ_iff.mp hk) hke
          · intro k hk hk0 hke
            match k with
            | 0 => exact lt_of_lt_of_le hlt (le_of_not_lt hs)
            | k + 1 => exact hstrict k (Nat.succ_lt_succ_iff.mp hk) (Nat.succ_lt_succ_iff.mp hk0) hke
    · rw [if_neg he]
      rcases IH (i + 1) bi bs with
        ⟨hres, hall⟩ | ⟨j, hj, hres, helig, hlt, hmin, hstrict⟩
      · left
        refine ⟨hres, ?_⟩
        intro k hk hke
        match k with
        | 0 => exact absurd hke he
        | k + 1 => exact hall k (Nat.succ_lt_succ_iff.mp hk) hke
      · right
        refine ⟨j + 1, Nat.succ_lt_succ hj, ?_, helig, hlt, ?_, ?_⟩
        · rw [hres]; congr 1; omega
        · intro k hk hke
          match k with
          | 0 => exact absurd hke he
          | k + 1 => exact hmin k (Nat.succ_lt_succ_iff.mp hk) hke
        · intro k hk hk0 hke
          match k with
          | 0 => exact absurd hke he
          | k + 1 => exact hstrict k (Nat.succ_lt_succ_iff.mp hk) (Nat.succ_lt_succ_iff.mp hk0) hke

lemma chm_vruntime (p : Proc) (t : Int) :
    (compute_heuristic_metrics p t).vruntime_ns = p.vruntime_ns := by
  rw [compute_heuristic_metrics_eq]; rfl

lemma chm_aging_nonneg (p : Proc) (t : Int) :
    0 ≤ (compute_heuristic_metrics p t).aging_boost := by
  rw [compute_heuristic_metrics_eq]
  unfold chm_spec
  dsimp only []
  split_ifs <;>
    first
    | exact le_min (Int.tdiv_nonneg (by omega) (by norm_num)) (by norm_num)
    | norm_num

/-- Any task whose `vruntime_ns` is below `2 ^ 62` scores strictly
below the `LLONG_MAX` sentinel, whatever the heuristic adjustments. -/
lemma heuristic_score_lt (p : Proc) (t : Int) (hb : p.vruntime_ns < 2 ^ 62) :
    heuristic_score p t < LLONG_MAX := by
  unfold heuristic_score LLONG_MAX toLL
  dsimp only []
  have h1 := chm_vruntime p t
  have h2 := chm_aging_nonneg p t
  have h62 : (2 : Nat) ^ 62 = 4611686018427387904 := by norm_num
  have h63 : (2 : Nat) ^ 63 = 9223372036854775808 := by norm_num
  have hi63 : (2 : Int) ^ 63 = 9223372036854775808 := by norm_num
  rw [h62] at hb
  have hq : (compute_heuristic_metrics p t).vruntime_ns < 2 ^ 63 := by
    rw [h1, h63]; omega
  rw [if_pos hq, hi63]
  have hc : ((compute_heuristic_metrics p t).vruntime_ns : Int) < 4611686018427387904 := by
    rw [h1]; omega
  have hmul : 0 ≤ (compute_heuristic_metrics p t).aging_boost * 100000000 :=
    mul_nonneg h2 (by norm_num)
  split_ifs <;> omega

lemma chm_state (p : Proc) (t : Int) :
    (compute_heuristic_metrics p t).state = p.state := by
  rw [compute_heuristic_metrics_eq]; rfl

lemma chm_arrival (p : Proc) (t : Int) :
    (compute_heuristic_metrics p t).arrival_time_ms = p.arrival_time_ms := by
  rw [compute_heuristic_metrics_eq]; rfl

lemma select_update_length (ts : List Proc) (ct st : Int) :
    (select_update ts ct st).length = ts.length :=
  List.length_map ts _

lemma select_update_get? (ts : List Proc) (ct st : Int) (k : Nat) :
    (select_update ts ct st).get? k =
      (ts.get? k).map fun p =>
        if eligible (ct - st) p then compute_heuristic_metrics p ct else p := by
  unfold select_update
  exact List.get?_map _ ts k

/-- Whatever `select_update` stores at an index has the state and the
arrival time the pre-state had there. -/
lemma select_update_fields (ts : List Proc) (ct st : Int) (k : Nat) (p q : Proc)
    (hp : ts.get? k = some p) (hq : (select_update ts ct st).get? k = some q) :
    q.state = p.state ∧ q.arrival_time_ms = p.arrival_time_ms := by
  rw [select_update_get? ts ct st k, hp] at hq
  obtain rfl := Option.some.inj hq
  dsimp only []
  split_ifs
  · exact ⟨chm_state _ _, chm_arrival _ _⟩
  · exact ⟨rfl, rfl⟩

/-- `stop_prev_if_needed` either leaves the list alone or overwrites the
previous index with its `PROC_STOPPED` copy. -/
lemma stop_prev_cases (ps : List Proc) (cur : Int) (j : Nat) :
    stop_prev_if_needed ps cur j = ps ∨
      ∃ prev, ps.get? cur.toNat = some prev ∧
        stop_prev_if_needed ps cur j =
          ps.set cur.toNat { prev with state := ProcState.PROC_STOPPED } := by
  unfold stop_prev_if_needed
  split_ifs with hcur
  · cases hm : ps.get? cur.toNat with
    | none => left; rfl
    | some prev =>
      dsimp only []
      split_ifs with hrun
      · right; exact ⟨prev, rfl, rfl⟩
      · left; rfl
  · left; rfl

lemma stop_prev_length (ps : List Proc) (cur : Int) (j : Nat) :
    (stop_prev_if_needed ps cur j).length = ps.length := by
  rcases stop_prev_cases ps cur j with heq | ⟨prev, hm, heq⟩ <;>
    simp [heq, List.length_set]

/-- Whatever `stop_prev_if_needed` stores at an index is either the
entry the list had there or its `PROC_STOPPED` copy; the arrival time
is kept either way. -/
lemma stop_prev_fields (ps : List Proc) (cur : Int) (j : Nat) (k : Nat) (p q : Proc)
    (hp : ps.get? k = some p) (hq : (stop_prev_if_needed ps cur j).get? k = some q) :
    (q = p ∨ (q.state = ProcState.PROC_STOPPED ∧ q.arrival_time_ms = p.arrival_time_ms)) := by
  rcases stop_prev_cases ps cur j with heq | ⟨prev, hm, heq⟩
  · rw [heq, hp] at hq
    exact Or.inl (Option.some.inj hq).symm
  · rw [heq] at hq
    by_cases hke : cur.toNat = k
    · subst hke
      have hlt : cur.toNat < ps.length := by
        by_contra hge
        rw [List.get?_eq_none.mpr (le_of_not_lt hge)] at hp
        exact Option.noConfusion hp
      rw [List.get?_set_eq_of_lt _ hlt] at hq
      obtain rfl := Option.some.inj hq
      right
      have : prev = p := Option.some.inj (hm ▸ hp)
      subst this
      exact ⟨rfl, rfl⟩
    · rw [List.get?_set_ne _ _ hke] at hq
      rw [hp] at hq
      exact Or.inl (Option.some.inj hq).symm

lemma switch_in_state (proc : Proc) (t1 st : Int) (p' : Proc)
    (h : switch_in proc t1 st = some p') :
    p'.state = ProcState.PROC_RUNNING ∧ p'.arrival_time_ms = proc.arrival_time_ms := by
  unfold switch_in at h
  split_ifs at h with hw h1
  all_goals
    first
    | exact Option.noConfusion h
    | (obtain rfl := Option.some.inj h; exact ⟨rfl, rfl⟩)

lemma get?_some_lt {α : Type} (l : List α) (n : Nat) (a : α) (h : l.get? n = some a) :
    n < l.length := by
  by_contra hge
  rw [List.get?_eq_none.mpr (le_of_not_lt hge)] at h
  exact Option.noConfusion h

/-- Combined effect on one index of the selector's mutation followed by
the context-switch-out: the state is preserved or becomes
`PROC_STOPPED`, and the arrival time is preserved. -/
lemma su_sp_fields (ts : List Proc) (ct st cur : Int) (j k : Nat) (p q : Proc)
    (hp : ts.get? k = some p)
    (hq : (stop_prev_if_needed (select_update ts ct st) cur j).get? k = some q) :
    (q.state = p.state ∨ q.state = ProcState.PROC_STOPPED) ∧
      q.arrival_time_ms = p.arrival_time_ms := by
  have hmid : (select_update ts ct st).get? k =
      some (if eligible (ct - st) p then compute_heuristic_metrics p ct else p) := by
    rw [select_update_get?, hp]; rfl
  have hf := select_update_fields ts ct st k p _ hp hmid
  rcases stop_prev_fields _ cur j k _ q hmid hq with rfl | ⟨hs2, ha2⟩
  · exact ⟨Or.inl hf.1, hf.2⟩
  · exact ⟨Or.inr hs2, ha2.trans hf.2⟩

/-- State evolution across the dispatch half of a loop iteration: every
task keeps its state, is context-switched out to `PROC_STOPPED`, or is
switched in to `PROC_RUNNING` — and in the latter case the loop's
arrival guard held for it at the loop-top clock sample `t1`. -/
lemma dispatch_phase_state (s : Scheduler) (t1 t_sel : Int) (s' : Scheduler) (oj : Option Nat)
    (h : dispatch_phase s t1 t_sel = some (s', oj)) :
    s'.processes.length = s.processes.length ∧
      s'.scheduler_start_time_ms = s.scheduler_start_time_ms ∧
      ∀ k p q, s.processes.get? k = some p → s'.processes.get? k = some q →
        (q.state = p.state ∨ q.state = ProcState.PROC_STOPPED ∨
          (q.state = ProcState.PROC_RUNNING ∧
            p.arrival_time_ms ≤ t1 - s.scheduler_start_time_ms)) := by
  unfold dispatch_phase at h
  dsimp only [] at h
  by_cases hneg :
      select_next_process_cfs_heuristic s.processes t_sel s.scheduler_start_time_ms < 0
  · rw [if_pos hneg] at h
    injection h with h2
    injection h2 with ha hb
    subst ha
    refine ⟨select_update_length _ _ _, rfl, ?_⟩
    intro k p q hp hq
    dsimp only [] at hq
    exact Or.inl (select_update_fields _ _ _ k p q hp hq).1
  · rw [if_neg hneg] at h
    cases hget : (select_update s.processes t_sel s.scheduler_start_time_ms).get?
        (select_next_process_cfs_heuristic s.processes t_sel
          s.scheduler_start_time_ms).toNat with
    | none => rw [hget] at h; exact Option.noConfusion h
    | some proc =>
      rw [hget] at h
      dsimp only [] at h
      by_cases harr : t1 - s.scheduler_start_time_ms < proc.arrival_time_ms
      · rw [if_pos harr] at h
        injection h with h2
        injection h2 with ha hb
        subst ha
        refine ⟨select_update_length _ _ _, rfl, ?_⟩
        intro k p q hp hq
        dsimp only [] at hq
        exact Or.inl (select_update_fields _ _ _ k p q hp hq).1
      · rw [if_neg harr] at h
        cases hget2 : (stop_prev_if_needed
            (select_update s.processes t_sel s.scheduler_start_time_ms)
            s.current_process_idx
            (select_next_process_cfs_heuristic s.processes t_sel
              s.scheduler_start_time_ms).toNat).get?
            (select_next_process_cfs_heuristic s.processes t_sel
              s.scheduler_start_time_ms).toNat with
        | none => rw [hget2] at h; exact Option.noConfusion h
        | some proc2 =>
          rw [hget2] at h
          dsimp only [] at h
          by_cases hst : proc2.state = ProcState.PROC_READY ∨
              proc2.state = ProcState.PROC_STOPPED
          · rw [if_pos hst] at h
            cases hsw : switch_in proc2 t1 s.scheduler_start_time_ms with
            | none => rw [hsw] at h; exact Option.noConfusion h
            | some proc3 =>
              rw [hsw] at h
              dsimp only [] at h
              injection h with h2
              injection h2 with ha hb
              subst ha
              refine ⟨?_, rfl, ?_⟩
              · dsimp only []
                rw [List.length_set, stop_prev_length, select_update_length]
              · intro k p q hp hq
                dsimp only [] at hq
                by_cases hkj :
                    (select_next_process_cfs_heuristic s.processes t_sel
                      s.scheduler_start_time_ms).toNat = k
                · subst hkj
                  rw [List.get?_set_eq_of_lt _ (get?_some_lt _ _ _ hget2)] at hq
                  obtain rfl := Option.some.inj hq
                  right; right
                  refine ⟨(switch_in_state proc2 t1 _ _ hsw).1, ?_⟩
                  have hf := select_update_fields s.processes t_sel
                    s.scheduler_start_time_ms _ p proc hp hget
                  rw [← hf.2]
                  omega
                · rw [List.get?_set_ne _ _ hkj] at hq
                  rcases su_sp_fields s.processes t_sel s.scheduler_start_time_ms
                      s.current_process_idx _ k p q hp hq with ⟨hs2 | hs2, _⟩
                  · exact Or.inl hs2
                  · exact Or.inr (Or.inl hs2)
          · rw [if_neg hst] at h
            injection h with h2
            injection h2 with ha hb
            subst ha
            refine ⟨?_, rfl, ?_⟩
            · dsimp only []
              rw [stop_prev_length, select_update_length]
            · intro k p q hp hq
              dsimp only [] at hq
              rcases su_sp_fields s.processes t_sel s.scheduler_start_time_ms
                  s.current_process_idx _ k p q hp hq with ⟨hs2 | hs2, _⟩
              · exact Or.inl hs2
              · exact Or.inr (Or.inl hs2)

/-- State evolution across the accounting half of a loop iteration:
the chosen task ends `PROC_COMPLETED` or `PROC_STOPPED`; every other
task is untouched. -/
lemma account_phase_state (s : Scheduler) (j : Nat) (executed : Int) (reaped : Bool)
    (t_fin : Int) (s' : Scheduler) (h : account_phase s j executed reaped t_fin = some s') :
    s'.processes.length = s.processes.length ∧
      ∀ k p q, s.processes.get? k = some p → s'.processes.get? k = some q →
        (q.state = p.state ∨ q.state = ProcState.PROC_STOPPED ∨
          q.state = ProcState.PROC_COMPLETED) := by
  unfold account_phase at h
  cases hj : s.processes.get? j with
  | none => rw [hj] at h; exact Option.noConfusion h
  | some proc =>
    rw [hj] at h
    dsimp only [] at h
    cases huv : update_vruntime
        { proc with
            remaining_time_ms :=
              if proc.remaining_time_ms - executed ≤ 0 then 0
              else proc.remaining_time_ms - executed }
        s.min_vruntime_ns executed with
    | none => rw [huv] at h; exact Option.noConfusion h
    | some pm =>
      obtain ⟨proc2, mv⟩ := pm
      rw [huv] at h
      dsimp only [] at h
      split_ifs at h with hdone
      · injection h with h2
        subst h2
        refine ⟨by dsimp only []; rw [List.length_set], ?_⟩
        intro k p q hp hq
        dsimp only [] at hq
        by_cases hkj : j = k
        · subst hkj
          rw [List.get?_set_eq_of_lt _ (get?_some_lt _ _ _ hj)] at hq
          obtain rfl := Option.some.inj hq
          exact Or.inr (Or.inr rfl)
        · rw [List.get?_set_ne _ _ hkj] at hq
          rw [hp] at hq
          exact Or.inl (congrArg Proc.state (Option.some.inj hq).symm)
      · injection h with h2
        subst h2
        refine ⟨by dsimp only []; rw [List.length_set], ?_⟩
        intro k p q hp hq
        dsimp only [] at hq
        by_cases hkj : j = k
        · subst hkj
          rw [List.get?_set_eq_of_lt _ (get?_some_lt _ _ _ hj)] at hq
          obtain rfl := Option.some.inj hq
          exact Or.inr (Or.inl rfl)
        · rw [List.get?_set_ne _ _ hkj] at hq
          rw [hp] at hq
          exact Or.inl (congrArg Proc.state (Option.some.inj hq).symm)

/-- State evolution across one full loop iteration. -/
lemma schedule_step_state (s : Scheduler) (t1 t_sel executed : Int) (reaped : Bool)
    (t_fin : Int) (s' : Scheduler)
    (h : schedule_step s t1 t_sel executed reaped t_fin = some s') :
    s'.processes.length = s.processes.length ∧
      ∀ k p q, s.processes.get? k = some p → s'.processes.get? k = some q →
        (q.state = p.state ∨ q.state = ProcState.PROC_RUNNING ∨
          q.state = ProcState.PROC_STOPPED ∨ q.state = ProcState.PROC_COMPLETED) := by
  unfold schedule_step at h
  cases hd : dispatch_phase s t1 t_sel with
  | none => rw [hd] at h; exact Option.noConfusion h
  | some so =>
    obtain ⟨s2, oj⟩ := so
    rw [hd] at h
    obtain ⟨hlen2, hstart2, hdis⟩ := dispatch_phase_state s t1 t_sel s2 oj hd
    cases oj with
    | none =>
      dsimp only [] at h
      obtain rfl := Option.some.inj h
      refine ⟨hlen2, ?_⟩
      intro k p q hp hq
      rcases hdis k p q hp hq with h1 | h1 | ⟨h1, _⟩
      · exact Or.inl h1
      · exact Or.inr (Or.inr (Or.inl h1))
      · exact Or.inr (Or.inl h1)
    | some j =>
      dsimp only [] at h
      obtain ⟨hlen3, hacc⟩ := account_phase_state s2 j executed reaped t_fin s' h
      refine ⟨hlen3.trans hlen2, ?_⟩
      intro k p q hp hq
      have hklt : k < s2.processes.length := by
        rw [hlen2]; exact get?_some_lt _ _ _ hp
      obtain ⟨pm, hpm⟩ : ∃ pm, s2.processes.get? k = some pm :=
        ⟨s2.processes.get ⟨k, hklt⟩, List.get?_eq_get hklt⟩
      rcases hacc k pm q hpm hq with h2 | h2 | h2
      · rcases hdis k p pm hp hpm with h1 | h1 | ⟨h1, _⟩
        · exact Or.inl (h2.trans h1)
        · exact Or.inr (Or.inr (Or.inl (h2.trans h1)))
        · exact Or.inr (Or.inl (h2.trans h1))
      · exact Or.inr (Or.inr (Or.inl h2))
      · exact Or.inr (Or.inr (Or.inr h2))

lemma init_process_state (i : Nat) (a b n : Int) (mv : Nat) (st : Int) (p : Proc)
    (h : init_process i a b n mv st = some p) : p.state = ProcState.PROC_READY := by
  unfold init_process at h
  cases hw : nice_to_weight n with
  | none => rw [hw] at h; exact Option.noConfusion h
  | some w =>
    rw [hw] at h
    obtain rfl := Option.some.inj h
    rfl

lemma init_tasks_state (st : Int) (ts : List Proc) (h : init_tasks st = some ts) :
    ∀ p ∈ ts, p.state = ProcState.PROC_READY := by
  unfold init_tasks at h
  generalize workload.enum = l at h
  induction l generalizing ts with
  | nil =>
    obtain rfl := Option.some.inj h
    intro p hp
    cases hp
  | cons a l IH =>
    rw [init_tasks_aux] at h
    cases hfa : init_process a.1 a.2.1 a.2.2.1 a.2.2.2 0 st with
    | none => rw [hfa] at h; exact Option.noConfusion h
    | some p0 =>
      rw [hfa] at h
      dsimp only [] at h
      cases hml : init_tasks_aux st l with
      | none => rw [hml] at h; exact Option.noConfusion h
      | some ps0 =>
        rw [hml] at h
        obtain rfl := Option.some.inj h
        intro p hp
        rcases List.mem_cons.mp hp with rfl | hmem
        · exact init_process_state a.1 a.2.1 a.2.2.1 a.2.2.2 0 st p hfa
        · exact IH ps0 hml p hmem

lemma chm_est (p : Proc) (t : Int) :
    (compute_heuristic_metrics p t).estimated_burst_ms =
      if p.estimated_burst_ms = 0 then max (Int.tdiv p.remaining_time_ms 4) 10
      else p.estimated_burst_ms := by
  rw [compute_heuristic_metrics_eq]; rfl

lemma chm_est_ne (p : Proc) (t : Int) :
    (compute_heuristic_metrics p t).estimated_burst_ms ≠ 0 := by
  rw [chm_est]
  split_ifs with h
  · have := le_max_right (Int.tdiv p.remaining_time_ms 4) 10
    omega
  · exact h

/-! ## Claim theorems -/

/-- C1: the claim states that `nice_to_weight` clamps its input to the
valid nice range and performs an in-bounds lookup into a 40-entry table
for every input, including nice 18 and 19.  The code violates it: the
table literal has only 38 entries while the clamp allows indices 38 and
39, so nice values 18 and 19 read past the end of the array (undefined
behavior, embedded as `none`).  Inputs that land on indices 0..37 do
work, as the sample evaluations show. -/
theorem nice_to_weight_reads_out_of_bounds :
    clamped_idx 18 = 38 ∧ clamped_idx 19 = 39 ∧ weights.length = 38 ∧
      nice_to_weight 18 = none ∧ nice_to_weight 19 = none ∧
      nice_to_weight 17 = some 23 ∧ nice_to_weight (-20) = some 88761 ∧
      nice_to_weight (-100) = some 88761 := by decide

/-- C2: the claim states that `weight_for(0) = 1024` (true), that the
weights are strictly decreasing over the full nice range [-20, 19], and
that the 40 canonical nice values reproduce the standard CFS table.
The stored table is strictly decreasing but has only 38 entries, so the
lookup is undefined at nice 18 and 19 (the standard table's final
entries 18 and 15 are missing) and the round-trip over all 40 canonical
values fails. -/
theorem weight_table_deviates_from_reference :
    nice_to_weight 0 = some 1024 ∧ List.Pairwise (fun a b => a > b) weights ∧
      weights.length = 38 ∧ nice_to_weight 19 = none := by decide

/-- C3 counterexample: a task with `total_wait_time_ms = 105` (which
exceeds the 100 ms threshold both before and after the evaluation) gets
`aging_boost = 0` from its next `compute_heuristic_metrics` call,
because `(105 - 100) / 10 = 0` — refuting the claim that any
`total_wait` above 100 ms yields a positive boost. -/
theorem aging_boost_zero_above_threshold :
    ({ sampleProc with
        total_wait_time_ms := 105,
        last_schedule_time_ms := 50 } : Proc).total_wait_time_ms > 100 ∧
      (compute_heuristic_metrics
          { sampleProc with total_wait_time_ms := 105, last_schedule_time_ms := 50 }
          50).total_wait_time_ms > 100 ∧
      ¬ 0 < (compute_heuristic_metrics
          { sampleProc with total_wait_time_ms := 105, last_schedule_time_ms := 50 }
          50).aging_boost := by decide

/-- C3 amended: a task whose `total_wait_time_ms` is at least 110 ms
(rather than merely exceeding 100 ms) has `aging_boost > 0` after its
next `compute_heuristic_metrics` call, and the boost never exceeds 10
no matter how large `total_wait` grows. -/
theorem aging_boost_positive_from_110ms (p : Proc) (t : Int) :
    (110 ≤ p.total_wait_time_ms → 0 < (compute_heuristic_metrics p t).aging_boost) ∧
      (compute_heuristic_metrics p t).aging_boost ≤ 10 := by
  rw [compute_heuristic_metrics_eq]
  unfold chm_spec
  dsimp only []
  constructor
  · intro h110
    split_ifs with h1 h2
    · have hd := h1.2
      refine lt_min ?_ (by norm_num)
      rw [Int.tdiv_eq_ediv (by omega) (by norm_num)]
      omega
    · have hd := h1.2
      exfalso; omega
    · refine lt_min ?_ (by norm_num)
      rw [Int.tdiv_eq_ediv (by omega) (by norm_num)]
      omega
    · exfalso; omega
  · split_ifs <;> first | exact min_le_right _ _ | norm_num

/-- Witness for C3's amended theorem at `total_wait_time_ms = 110`. -/
theorem aging_boost_positive_from_110ms_witness :
    (110 : Int) ≤ ({ sampleProc with total_wait_time_ms := 110 } : Proc).total_wait_time_ms ∧
      0 < (compute_heuristic_metrics
          { sampleProc with total_wait_time_ms := 110 } 0).aging_boost :=
  ⟨by decide,
    (aging_boost_positive_from_110ms { sampleProc with total_wait_time_ms := 110 } 0).1
      (by decide)⟩

/-- C4: after every `compute_heuristic_metrics` call, `aging_boost`
equals `(total_wait - 100) / 10` (truncating division, which on these
non-negative operands is the floor) clamped to a maximum of 10 when the
current `total_wait_time_ms` exceeds 100 ms, and equals 0 otherwise.
The formula reads only the updated `total_wait_time_ms` — the pre-call
`aging_boost` does not occur in it, so the value is recomputed fresh on
each call and always lies in [0, 10]. -/
theorem aging_boost_recomputed_and_clamped (p : Proc) (t : Int) :
    ((compute_heuristic_metrics p t).aging_boost =
        if 100 < (compute_heuristic_metrics p t).total_wait_time_ms then
          min (Int.tdiv ((compute_heuristic_metrics p t).total_wait_time_ms - 100) 10) 10
        else 0) ∧
      0 ≤ (compute_heuristic_metrics p t).aging_boost ∧
      (compute_heuristic_metrics p t).aging_boost ≤ 10 := by
  rw [compute_heuristic_metrics_eq]
  unfold chm_spec
  dsimp only []
  refine ⟨rfl, ?_, ?_⟩ <;>
    (split_ifs <;>
      first
      | exact le_min (Int.tdiv_nonneg (by omega) (by norm_num)) (by norm_num)
      | exact min_le_right _ _
      | norm_num)

/-- C5: burst estimation is a one-shot seed.  A call that finds
`estimated_burst_ms = 0` sets it to `max (remaining / 4) 10` (the base
quantum floor); a call that finds it non-zero leaves it unchanged; the
seeded value is at least 10, so an immediately following call leaves the
field unchanged as well. -/
theorem burst_estimation_one_shot (p : Proc) (t t2 : Int) :
    ((compute_heuristic_metrics p t).estimated_burst_ms =
        if p.estimated_burst_ms = 0 then max (Int.tdiv p.remaining_time_ms 4) 10
        else p.estimated_burst_ms) ∧
      (p.estimated_burst_ms = 0 → 10 ≤ (compute_heuristic_metrics p t).estimated_burst_ms) ∧
      (p.estimated_burst_ms ≠ 0 →
        (compute_heuristic_metrics p t).estimated_burst_ms = p.estimated_burst_ms) ∧
      (compute_heuristic_metrics (compute_heuristic_metrics p t) t2).estimated_burst_ms =
        (compute_heuristic_metrics p t).estimated_burst_ms := by
  refine ⟨chm_est p t, ?_, ?_, ?_⟩
  · intro h0
    rw [chm_est]
    simp only [h0, if_true, if_pos]
    exact le_max_right _ _
  · intro h0
    rw [chm_est]
    simp [h0]
  · rw [chm_est (compute_heuristic_metrics p t) t2]
    simp [chm_est_ne p t]

/-- Witness for C5 on a freshly initialized task (`estimated_burst_ms = 0`). -/
theorem burst_estimation_one_shot_witness :
    sampleProc.estimated_burst_ms = 0 ∧
      (10 : Int) ≤ (compute_heuristic_metrics sampleProc 0).estimated_burst_ms :=
  ⟨by decide, (burst_estimation_one_shot sampleProc 0 0).2.1 (by decide)⟩

/-- C6: with a positive (int-ranged) weight, non-negative executed time
and no 64-bit overflow, `update_vruntime` adds exactly
`(executed_ms * 1000000 * 1024) / weight` (integer division, hence the
floor) to `vruntime_ns`, so the counter never decreases, and it sets
`min_vruntime_ns` to the new vruntime exactly when the new vruntime is
strictly below the current minimum or the minimum still holds its zero
sentinel, leaving it unchanged otherwise. -/
theorem update_vruntime_delta_and_min (p : Proc) (mv : Nat) (e : Int)
    (hw : 0 < p.weight) (hw64 : p.weight < 2 ^ 64) (he : 0 ≤ e)
    (hov1 : e * 1000000 * 1024 < 2 ^ 64)
    (hov2 : p.vruntime_ns + (e * 1000000 * 1024).toNat / p.weight.toNat < 2 ^ 64) :
    update_vruntime p mv e =
      some ({ p with
                vruntime_ns :=
                  p.vruntime_ns + (e * 1000000 * 1024).toNat / p.weight.toNat },
            if p.vruntime_ns + (e * 1000000 * 1024).toNat / p.weight.toNat < mv ∨ mv = 0 then
              p.vruntime_ns + (e * 1000000 * 1024).toNat / p.weight.toNat
            else mv) ∧
      p.vruntime_ns ≤ p.vruntime_ns + (e * 1000000 * 1024).toNat / p.weight.toNat := by
  refine ⟨?_, Nat.le_add_right _ _⟩
  have hi64 : (2 : Int) ^ 64 = 18446744073709551616 := by norm_num
  have hn64 : (2 : Nat) ^ 64 = 18446744073709551616 := by norm_num
  rw [hi64] at hw64 hov1
  rw [hn64] at hov2
  unfold update_vruntime
  rw [if_neg (by omega)]
  dsimp only []
  simp only [hi64, hn64]
  have e1 : ((e * 1000000) % (18446744073709551616 : Int)).toNat = (e * 1000000).toNat := by
    omega
  have e2 : (p.weight % (18446744073709551616 : Int)).toNat = p.weight.toNat := by omega
  rw [e1, e2]
  have e3 : ((e * 1000000).toNat * 1024) % 18446744073709551616 =
      (e * 1000000 * 1024).toNat := by omega
  rw [e3]
  have e4 : (p.vruntime_ns + (e * 1000000 * 1024).toNat / p.weight.toNat) %
        18446744073709551616 =
      p.vruntime_ns + (e * 1000000 * 1024).toNat / p.weight.toNat :=
    Nat.mod_eq_of_lt hov2
  rw [e4]

/-- Witness for C6: 7 ms at weight 1024 advance vruntime by exactly
7000000 ns, and the zero `min_vruntime_ns` sentinel is overwritten. -/
theorem update_vruntime_delta_and_min_witness :
    update_vruntime sampleProc 0 7 = some ({ sampleProc with vruntime_ns := 7000000 }, 7000000) :=
  (update_vruntime_delta_and_min sampleProc 0 7 (by decide) (by decide) (by decide)
      (by decide) (by decide)).1

/-- C7: the selector considers exactly the tasks whose state is Ready or
Stopped and whose arrival time is at or before the elapsed time
(`eligible`); it scores each considered task (after running the
heuristic engine on it) as
`vruntime - aging_boost*100000000 - (estimated_burst < 50 ? 50000000 : 0)
 + (remaining > 100 ? 10000000 : 0)` (third conjunct), returns the index
of the considered task with the strictly lowest score with ties resolved
in favor of the first-encountered task (second conjunct), and returns -1
if and only if no task passes the filters (first conjunct).  The
hypothesis bounds every `vruntime_ns` so that no score reaches the
`LLONG_MAX` sentinel. -/
theorem select_next_characterization (ts : List Proc) (current_time start_time : Int)
    (hb : ∀ p ∈ ts, p.vruntime_ns < 2 ^ 62) :
    (select_next_process_cfs_heuristic ts current_time start_time = -1 ↔
      ∀ k (hk : k < ts.length), ¬ eligible (current_time - start_time) (ts.get ⟨k, hk⟩)) ∧
      (∀ j : Nat, select_next_process_cfs_heuristic ts current_time start_time = (j : Int) →
        ∃ hj : j < ts.length,
          eligible (current_time - start_time) (ts.get ⟨j, hj⟩) ∧
          (∀ k (hk : k < ts.length), eligible (current_time - start_time) (ts.get ⟨k, hk⟩) →
            heuristic_score (ts.get ⟨j, hj⟩) current_time ≤
              heuristic_score (ts.get ⟨k, hk⟩) current_time) ∧
          (∀ k (hk : k < ts.length), k < j →
            eligible (current_time - start_time) (ts.get ⟨k, hk⟩) →
            heuristic_score (ts.get ⟨j, hj⟩) current_time <
              heuristic_score (ts.get ⟨k, hk⟩) current_time)) ∧
      (∀ p ∈ ts, heuristic_score p current_time =
        ((compute_heuristic_metrics p current_time).vruntime_ns : Int) -
            (compute_heuristic_metrics p current_time).aging_boost * 100000000 -
            (if (compute_heuristic_metrics p current_time).estimated_burst_ms < 50 then
              50000000
            else 0) +
          (if (compute_heuristic_metrics p current_time).remaining_time_ms > 100 then
            10000000
          else 0)) := by
  have H := selectAux_spec current_time (current_time - start_time) ts 0 (-1) LLONG_MAX
  refine ⟨?_, ?_, ?_⟩
  · -- -1 iff no task passes the filters
    rcases H with ⟨hres, hall⟩ | ⟨j, hj, hres, helig, hlt, hmin, hstrict⟩
    · unfold select_next_process_cfs_heuristic
      rw [hres]
      constructor
      · intro _ k hk hke
        have hscore := heuristic_score_lt (ts.get ⟨k, hk⟩) current_time
          (hb _ (List.get_mem ts k hk))
        exact absurd (hall k hk hke) (not_le.mpr hscore)
      · intro _; rfl
    · unfold select_next_process_cfs_heuristic
      rw [hres]
      constructor
      · intro hcontr; exfalso; omega
      · intro hnone; exact absurd helig (hnone j hj)
  · -- a returned index is the first argmin among the considered tasks
    intro j' hj'
    unfold select_next_process_cfs_heuristic at hj'
    rcases H with ⟨hres, hall⟩ | ⟨j, hj, hres, helig, hlt, hmin, hstrict⟩
    · rw [hres] at hj'; exfalso; omega
    · rw [hres] at hj'
      have hjj : j' = j := by omega
      subst hjj
      exact ⟨hj, helig, hmin, hstrict⟩
  · -- the score formula of the claim, with the 64-to-signed conversion
    -- collapsing under the vruntime bound
    intro p hp
    unfold heuristic_score toLL INTERACTIVE_THRESHOLD_MS
    dsimp only []
    have h1 := chm_vruntime p current_time
    have h62 : (2 : Nat) ^ 62 = 4611686018427387904 := by norm_num
    have h63 : (2 : Nat) ^ 63 = 9223372036854775808 := by norm_num
    have hble := hb p hp
    rw [h62] at hble
    have hq : (compute_heuristic_metrics p current_time).vruntime_ns < 2 ^ 63 := by
      rw [h1, h63]; omega
    rw [if_pos hq]

/-- Witness for C7 on a one-task list with an eligible task. -/
theorem select_next_characterization_witness :
    select_next_process_cfs_heuristic [sampleProc] 5 0 = -1 ↔
      ∀ k (hk : k < ([sampleProc] : List Proc).length),
        ¬ eligible (5 - 0) (([sampleProc] : List Proc).get ⟨k, hk⟩) :=
  (select_next_characterization [sampleProc] 5 0 (by decide)).1

/-- C8: the claim states that `update_vruntime` guards zero or negative
weights and negative executed times with an assertion that fails
loudly.  The code has no assertion at all: a negative executed time is
converted to a huge unsigned value and silently adds about 1.8e16 ns to
`vruntime_ns` (first conjunct, evaluated at `executed_time_ms = -1`),
and a zero weight reaches an unguarded division by zero (undefined
behavior, embedded as `none`), not an assertion failure (second
conjunct). -/
theorem update_vruntime_lacks_assertion_guard :
    update_vruntime sampleProc 0 (-1) =
      some ({ sampleProc with vruntime_ns := 18014398508481984 }, 18014398508481984) ∧
      update_vruntime { sampleProc with weight := 0 } 0 5 = none := by decide

/-- C9: a task is switched to `PROC_RUNNING` during the dispatch half of
a loop iteration only if its arrival time is at or before
`t1 - scheduler_start_time_ms`, the elapsed time at the loop-top clock
sample (the actual state write happens no earlier than `t1` on the
monotonic clock); and the accounting half never puts any task into
`PROC_RUNNING`.  Together the selector's arrival filter and the loop's
own re-check ensure no pre-arrival task is ever set Running. -/
theorem running_requires_arrival :
    (∀ s t1 t_sel s' oj, dispatch_phase s t1 t_sel = some (s', oj) →
      ∀ k p q, s.processes.get? k = some p → s'.processes.get? k = some q →
        q.state = ProcState.PROC_RUNNING →
        (p.state = ProcState.PROC_RUNNING ∨
          p.arrival_time_ms ≤ t1 - s.scheduler_start_time_ms)) ∧
      (∀ s j executed reaped t_fin s',
        account_phase s j executed reaped t_fin = some s' →
        ∀ k p q, s.processes.get? k = some p → s'.processes.get? k = some q →
          q.state = ProcState.PROC_RUNNING → p.state = ProcState.PROC_RUNNING) := by
  constructor
  · intro s t1 t_sel s' oj h k p q hp hq hrun
    obtain ⟨-, -, hdis⟩ := dispatch_phase_state s t1 t_sel s' oj h
    rcases hdis k p q hp hq with h1 | h1 | ⟨-, h1⟩
    · exact Or.inl (h1 ▸ hrun)
    · rw [hrun] at h1; exact ProcState.noConfusion h1
    · exact Or.inr h1
  · intro s j executed reaped t_fin s' h k p q hp hq hrun
    obtain ⟨-, hacc⟩ := account_phase_state s j executed reaped t_fin s' h
    rcases hacc k p q hp hq with h1 | h1 | h1
    · exact h1 ▸ hrun
    · rw [hrun] at h1; exact ProcState.noConfusion h1
    · rw [hrun] at h1; exact ProcState.noConfusion h1

/-- Witness for C9: dispatching `sampleSched` at clock 5 switches task 0
in (it is Running afterwards), and accounting task 1 of `sampleSched2`
leaves the already-Running task 0 Running. -/
theorem running_requires_arrival_witness :
    (sampleProc.state = ProcState.PROC_RUNNING ∨
      sampleProc.arrival_time_ms ≤ 5 - sampleSched.scheduler_start_time_ms) ∧
      sampleRunningProc.state = ProcState.PROC_RUNNING :=
  ⟨running_requires_arrival.1 sampleSched 5 5 sampleDispatched (some 0) (by decide) 0
      sampleProc sampleDispatchedProc (by decide) (by decide) (by decide),
    running_requires_arrival.2 sampleSched2 1 10 false 20 sampleAccounted (by decide) 0
      sampleRunningProc sampleRunningProc (by decide) (by decide) (by decide)⟩

/-- C10: the fifth declared state `PROC_WAITING_ARRIVAL` is never
stored.  Setup writes `PROC_READY` into every task, and one loop
iteration maps every stored state to one of the four used states —
pre-arrival eligibility exists only as the derived check
`elapsed >= arrival_time_ms` inside the selector and the loop. -/
theorem waiting_arrival_state_never_stored :
    (∀ start_time ts, init_tasks start_time = some ts →
      ∀ p ∈ ts, p.state = ProcState.PROC_READY) ∧
      (∀ s t1 t_sel executed reaped t_fin s',
        schedule_step s t1 t_sel executed reaped t_fin = some s' →
        (∀ p ∈ s.processes, p.state ≠ ProcState.PROC_WAITING_ARRIVAL) →
        ∀ q ∈ s'.processes, q.state ≠ ProcState.PROC_WAITING_ARRIVAL) := by
  constructor
  · exact fun st ts h => init_tasks_state st ts h
  · intro s t1 t_sel executed reaped t_fin s' h hpre q hq
    obtain ⟨⟨k, hk⟩, rfl⟩ := List.mem_iff_get.mp hq
    obtain ⟨hlen, hstep⟩ := schedule_step_state s t1 t_sel executed reaped t_fin s' h
    have hks : k < s.processes.length := by rw [← hlen]; exact hk
    have hp : s.processes.get? k = some (s.processes.get ⟨k, hks⟩) := List.get?_eq_get hks
    have hq2 : s'.processes.get? k = some (s'.processes.get ⟨k, hk⟩) := List.get?_eq_get hk
    rcases hstep k _ _ hp hq2 with h1 | h1 | h1 | h1
    · rw [h1]; exact hpre _ (List.get_mem _ _ _)
    · rw [h1]; decide
    · rw [h1]; decide
    · rw [h1]; decide

/-- Witness for C10: the first task of the concrete workload is Ready
after setup, and after one concrete iteration no stored state is the
never-used fifth value. -/
theorem waiting_arrival_state_never_stored_witness :
    (sampleInit.get ⟨0, by decide⟩).state = ProcState.PROC_READY ∧
      (sampleStepped.processes.get ⟨0, by decide⟩).state ≠ ProcState.PROC_WAITING_ARRIVAL :=
  ⟨waiting_arrival_state_never_stored.1 0 sampleInit (by decide) _ (List.get_mem _ _ _),
    waiting_arrival_state_never_stored.2 sampleSched 5 5 10 false 20 sampleStepped (by decide)
      (by decide) _ (List.get_mem _ _ _)⟩

end CfsScheduler
